import Mathlib

/-!
Verification development for the streaming diff parser and hunk aligner of
the `git-split-diffs` repository.  The definitions below are shallow
embeddings of the two source files:

* `src/index.ts` — the unified-diff prototype (`iterateReadableLinesAsync`,
  `iterateLinesWithoutAnsiColors`, `iterateUnifiedDiff` with its inner
  `yieldHunkIfNeeded` and `formatHunkLine`);
* `src/unnamed/part_000` — the side-by-side parser
  (`iterSideBySideDiffsFormatted` with `BINARY_FILES_DIFF_REGEX`).

JavaScript values that may be `undefined` are embedded as `Option`:
`none` stands for `undefined` (including `NaN` for numbers produced by
`parseInt`), `some v` for a defined value.  Rendering (colors, column
widths, `iterFormatHunk` and friends) is external to the parser; calls
into it are embedded as emitted events carrying exactly the arguments the
source passes.
-/

set_option autoImplicit false

/-- JavaScript `line.startsWith(pre)`. -/
def strStartsWith (s pre : String) : Bool :=
  pre.data.isPrefixOf s.data

/-- JavaScript `s.slice(n)` for a non-negative `n`. -/
def strDrop (s : String) (n : Nat) : String :=
  String.mk (s.data.drop n)

/-- JavaScript `s.slice(start, stop)` for non-negative indices
(`stop < start` gives the empty string). -/
def sliceStr (s : String) (start stop : Nat) : String :=
  String.mk ((s.data.take stop).drop start)

/-- JavaScript `s.split(sep)` for a single-character separator: every
occurrence of `sep` separates two (possibly empty) fields, and the result
is never the empty list. -/
def splitOnCharList (sep : Char) : List Char → List (List Char)
  | [] => [[]]
  | c :: rest =>
    if c = sep then [] :: splitOnCharList sep rest
    else
      match splitOnCharList sep rest with
      | [] => [[c]]
      | l :: ls => (c :: l) :: ls

/-- String wrapper around `splitOnCharList`. -/
def splitOnCharStr (s : String) (sep : Char) : List String :=
  (splitOnCharList sep s.data).map String.mk

/-- JavaScript `s.indexOf(pat, start)`: the least position `p ≥ start`
where `pat` occurs in `s`, or `none` (JavaScript `-1`) when there is no
occurrence. -/
def indexOfFrom (s pat : String) (start : Nat) : Option Nat :=
  ((List.range (s.data.length + 1)).filter
    (fun p => decide (start ≤ p) && pat.data.isPrefixOf (s.data.drop p))).head?

/-- Digits of a decimal number read left to right. -/
def digitsToNat (ds : List Char) : Nat :=
  ds.foldl (fun a c => a * 10 + (c.toNat - 48)) 0

/-- Leading decimal digits of a string, `none` when there are none. -/
def parseDigits (s : List Char) : Option Nat :=
  let ds := s.takeWhile Char.isDigit
  if ds.isEmpty then none else some (digitsToNat ds)

/-- JavaScript `parseInt(s, 10)`: skip leading blanks, read an optional
sign and then leading decimal digits; `none` embeds `NaN`. -/
def parseIntJS (s : String) : Option Int :=
  let t := s.data.dropWhile (fun c => c = ' ' || c = '\t')
  match t with
  | '-' :: rest => (parseDigits rest).map (fun n => -(n : Int))
  | '+' :: rest => (parseDigits rest).map (fun n => (n : Int))
  | _ => (parseDigits t).map (fun n => (n : Int))

/-- JavaScript `parseInt(x, 10)` where `x` itself may be `undefined`
(`parseInt(undefined, 10)` is `NaN`). -/
def optParseInt : Option String → Option Int
  | none => none
  | some s => parseIntJS s

/-- `chunk.toString().split(/\r\n|\n/)`: split on each `\r\n` or `\n`,
trying `\r\n` first at every position, keeping lone `\r` characters. -/
def splitNLList : List Char → List (List Char)
  | [] => [[]]
  | '\r' :: '\n' :: rest => [] :: splitNLList rest
  | '\n' :: rest => [] :: splitNLList rest
  | c :: rest =>
    match splitNLList rest with
    | [] => [[c]]
    | l :: ls => (c :: l) :: ls

/-- String wrapper around `splitNLList`. -/
def jsSplitNewlines (s : String) : List String :=
  (splitNLList s.data).map String.mk

/-- Truthiness of the JavaScript variable `prevLine : string | undefined`
(`undefined` and the empty string are falsy). -/
def truthyStr : Option String → Bool
  | none => false
  | some s => !(s = "")

/-- Inner `for` loop of `iterateReadableLinesAsync` over the split pieces
of one chunk: `n` is `lines.length`, `i` the current index, `prev` the
enclosing `prevLine` variable.  Returns the yielded lines and the value of
`prevLine` after the chunk. -/
def chunkLoop (n : Nat) : Nat → Option String → List String → List String × Option String
  | _, prev, [] => ([], prev)
  | i, prev, l :: rest =>
    if i = 0 && truthyStr prev then
      let r := chunkLoop n (i + 1) prev rest
      ((prev.getD "" ++ l) :: r.1, r.2)
    else if i = n - 1 && decide (0 < l.length) then
      chunkLoop n (i + 1) (some l) rest
    else
      let r := chunkLoop n (i + 1) prev rest
      (l :: r.1, r.2)

/-- Embedding of `iterateReadableLinesAsync` (src/index.ts): reassemble
the chunks of a readable stream into lines.  The input is the list of
chunks, the output the list of yielded lines. -/
def iterateReadableLines (chunks : List String) : List String :=
  let r := chunks.foldl
    (fun (acc : List String × Option String) ch =>
      let lines := jsSplitNewlines ch
      let s := chunkLoop lines.length 0 acc.2 lines
      (acc.1 ++ s.1, s.2))
    ([], none)
  r.1 ++
    (match r.2 with
     | some p => if decide (0 < p.length) then [p] else []
     | none => [])

example : jsSplitNewlines "a\nb" = ["a", "b"] := by decide
example : jsSplitNewlines "a\r\nb\n" = ["a", "b", ""] := by decide
example : iterateReadableLines ["ab", "c\n", "d\n"] = ["abc", "", "abd", "", "ab"] := by decide
example : iterateReadableLines ["a\nb"] = ["a", "b"] := by decide

/-!
Model of the `ansi-regex` pattern (the npm dependency both source files
strip colors with):

  `[\u001B\u009B][[\]()#;?]*(?:(?:(?:(?:;[-a-zA-Z\d\/#&.:=?%@~_]+)*|[a-zA-Z\d]+(?:;[-a-zA-Z\d\/#&.:=?%@~_]*)*)?\u0007)|(?:(?:\d{1,4}(?:;\d{0,4})*)?[\dA-PR-TZcf-nq-uy=><~]))`

A matcher is a function returning the list of lengths it can consume at
the start of the input, in backtracking preference order; the overall
match at a position is the head of that list.  Greedy repetition tries
longer counts first, exactly as the JavaScript engine does.
-/

/-- An escape-sequence introducer: `\u001B` (ESC) or `\u009B` (CSI). -/
def isIntro (c : Char) : Bool :=
  c = '\x1b' || c = '\u009b'

/-- The character class `[[\]()#;?]`. -/
def isLinkCls (c : Char) : Bool :=
  ['[', ']', '(', ')', '#', ';', '?'].contains c

/-- The character class `[-a-zA-Z\d\/#&.:=?%@~_]`. -/
def isTokCh (c : Char) : Bool :=
  c = '-' || c.isAlpha || c.isDigit || ['/', '#', '&', '.', ':', '=', '?', '%', '@', '~', '_'].contains c

/-- The character class `[a-zA-Z\d]`. -/
def isAlnumCh (c : Char) : Bool :=
  c.isAlpha || c.isDigit

/-- The final-byte class `[\dA-PR-TZcf-nq-uy=><~]`. -/
def isFinalCh (c : Char) : Bool :=
  c.isDigit || ('A' ≤ c && c ≤ 'P') || ('R' ≤ c && c ≤ 'T') || c = 'Z' || c = 'c'
    || ('f' ≤ c && c ≤ 'n') || ('q' ≤ c && c ≤ 'u') || c = 'y' || c = '=' || c = '>'
    || c = '<' || c = '~'

/-- Matcher for a single character satisfying `p`. -/
def mPred (p : Char → Bool) : List Char → List Nat
  | [] => []
  | c :: _ => if p c then [1] else []

/-- Sequencing of matchers, preserving backtracking order. -/
def mThen (f g : List Char → List Nat) (s : List Char) : List Nat :=
  (f s).flatMap (fun n => (g (s.drop n)).map (fun m => n + m))

/-- Alternation of matchers (first alternative preferred). -/
def mOr (f g : List Char → List Nat) (s : List Char) : List Nat :=
  f s ++ g s

/-- Greedy option `f?`. -/
def mOpt (f : List Char → List Nat) (s : List Char) : List Nat :=
  f s ++ [0]

/-- Greedy star over a matcher whose every success consumes at least one
character; `fuel` bounds the number of iterations. -/
def mStarG (f : List Char → List Nat) : Nat → List Char → List Nat
  | 0, _ => [0]
  | fuel + 1, s =>
    ((f s).filter (fun n => decide (0 < n))).flatMap
      (fun n => (mStarG f fuel (s.drop n)).map (fun m => n + m)) ++ [0]

/-- Greedy star with enough fuel for any input. -/
def mStar (f : List Char → List Nat) (s : List Char) : List Nat :=
  mStarG f s.length s

/-- Greedy star over a character class (candidates `r, r-1, …, 0` where
`r` is the length of the leading run). -/
def mStarRun (p : Char → Bool) (s : List Char) : List Nat :=
  (List.range ((s.takeWhile p).length + 1)).reverse

/-- Greedy plus over a character class (candidates `r, …, 1`). -/
def mPlusRun (p : Char → Bool) (s : List Char) : List Nat :=
  (List.range ((s.takeWhile p).length)).reverse.map (fun n => n + 1)

/-- Greedy bounded repetition `p{1,4}`. -/
def mRep14 (p : Char → Bool) (s : List Char) : List Nat :=
  (List.range (min 4 (s.takeWhile p).length)).reverse.map (fun n => n + 1)

/-- Greedy bounded repetition `p{0,4}`. -/
def mRep04 (p : Char → Bool) (s : List Char) : List Nat :=
  (List.range (min 4 (s.takeWhile p).length + 1)).reverse

/-- The BEL-terminated branch
`(?:(?:(?:;[-…]+)*|[a-zA-Z\d]+(?:;[-…]*)*)?\u0007)`. -/
def ansiTailBel : List Char → List Nat :=
  mThen
    (mOpt (mOr
      (mStar (mThen (mPred (fun c => c = ';')) (mPlusRun isTokCh)))
      (mThen (mPlusRun isAlnumCh)
        (mStar (mThen (mPred (fun c => c = ';')) (mStarRun isTokCh))))))
    (mPred (fun c => c = '\x07'))

/-- The CSI-style branch `(?:(?:\d{1,4}(?:;\d{0,4})*)?[\dA-PR-TZcf-nq-uy=><~])`. -/
def ansiTailCsi : List Char → List Nat :=
  mThen
    (mOpt (mThen (mRep14 Char.isDigit)
      (mStar (mThen (mPred (fun c => c = ';')) (mRep04 Char.isDigit)))))
    (mPred isFinalCh)

/-- Length of the `ansi-regex` match starting at the head of `s`, or
`none` when the pattern does not match there. -/
def matchLenAt (s : List Char) : Option Nat :=
  (mThen (mPred isIntro) (mThen (mStarRun isLinkCls) (mOr ansiTailBel ansiTailCsi)) s).head?

/-- One pass of `line.replace(ANSI_COLOR_CODE_REGEX, '')`: scan left to
right, drop each match, keep every other character.  `fuel` bounds the
number of scan steps; `s.length` is always enough. -/
def stripAnsiAux : Nat → List Char → List Char
  | 0, s => s
  | _ + 1, [] => []
  | fuel + 1, c :: rest =>
    match matchLenAt (c :: rest) with
    | some n =>
      if 1 ≤ n then stripAnsiAux fuel ((c :: rest).drop n)
      else c :: stripAnsiAux fuel rest
    | none => c :: stripAnsiAux fuel rest

/-- Embedding of the sanitizer `line.replace(ANSI_COLOR_CODE_REGEX, '')`
used by `iterateLinesWithoutAnsiColors` (src/index.ts) and at the top of
the loop of `iterSideBySideDiffsFormatted` (src/unnamed/part_000). -/
def stripAnsi (s : String) : String :=
  String.mk (stripAnsiAux s.data.length s.data)

/-- Does the string contain an escape-sequence introducer? -/
def hasIntro (s : String) : Bool :=
  s.data.any isIntro

example : stripAnsi "\x1b[31mred\x1b[0m" = "red" := by decide
example : stripAnsi "plain" = "plain" := by decide
example : stripAnsi "\x1b[\x1b[31m31m" = "\x1b[31m" := by decide
example : stripAnsi "\x1b]8;;http://x\x07t" = "t" := by decide

/-!
Model of `BINARY_FILES_DIFF_REGEX` (src/unnamed/part_000):

  `/^Binary files (?:a\/(.*)|\/dev\/null) and (?:b\/(.*)|\/dev\/null) differ$/`

The anchored literals are peeled off; the greedy first `(.*)` is embedded
by trying split positions for the literal `" and "` from longest first
capture to shortest, and for each split the second alternation is checked
— exactly the backtracking order of the engine.  Capture groups of an
alternative that did not participate are `none` (`undefined`). -/

/-- The second alternation `(?:b\/(.*)|\/dev\/null)` against the whole
remaining text; on success returns group 2. -/
def binSndAlt (tail : List Char) : Option (Option (List Char)) :=
  if ['b', '/'].isPrefixOf tail then some (some (tail.drop 2))
  else if tail = "/dev/null".data then some none
  else none

/-- The first alternative `a\/(.*)` followed by `" and "` and the second
alternation, with the greedy backtracking over the capture. -/
def binFstAltA (mid : List Char) : Option (Option String × Option String) :=
  if ['a', '/'].isPrefixOf mid then
    let rest := mid.drop 2
    match ((List.range (rest.length + 1)).reverse.filter
        (fun p => " and ".data.isPrefixOf (rest.drop p)
          && (binSndAlt (rest.drop (p + 5))).isSome)).head? with
    | some p =>
      match binSndAlt (rest.drop (p + 5)) with
      | some g2 => some (some (String.mk (rest.take p)), g2.map String.mk)
      | none => none
    | none => none
  else none

/-- The first alternative `\/dev\/null` followed by `" and "` and the
second alternation. -/
def binFstAltNull (mid : List Char) : Option (Option String × Option String) :=
  if "/dev/null and ".data.isPrefixOf mid then
    (binSndAlt (mid.drop 14)).map (fun g2 => (none, g2.map String.mk))
  else none

/-- Embedding of `line.match(BINARY_FILES_DIFF_REGEX)`: `none` when the
whole line does not match, otherwise the two capture groups. -/
def binaryFilesMatch (line : String) : Option (Option String × Option String) :=
  let s := line.data
  if "Binary files ".data.isPrefixOf s && " differ".data.isSuffixOf s
      && decide (20 ≤ s.length) then
    let mid := (s.drop 13).take (s.length - 13 - 7)
    match binFstAltA mid with
    | some r => some r
    | none => binFstAltNull mid
  else none

example : binaryFilesMatch "Binary files a/x.bin and /dev/null differ"
    = some (some "x.bin", none) := by decide
example : binaryFilesMatch "Binary files a/old name.bin and b/new name.bin differ"
    = some (some "old name.bin", some "new name.bin") := by decide
example : binaryFilesMatch "Binary files /dev/null and b/y differ"
    = some (none, some "y") := by decide
example : binaryFilesMatch "Binary files a/a and b and b/c differ"
    = some (some "a and b", some "c") := by decide
example : binaryFilesMatch "Binary files weird" = none := by decide

/-!
Embedding of `iterSideBySideDiffsFormatted` (src/unnamed/part_000).
Calls into the external renderer (`iterFormatFileName`, `iterFormatHunk`,
`iterFormatCommitLine`, the raw passthrough and the separator constant)
are emitted as events carrying exactly the arguments of the call.
-/

/-- The `state` variable of `iterSideBySideDiffsFormatted`. -/
inductive SBSRegion where
  | unknown
  | commit
  | diff
  | hunk
  deriving DecidableEq, Repr

/-- The mutable variables of `iterSideBySideDiffsFormatted`.  File names
and start lines are `Option` because the binary-files destructuring can
store `undefined` and `parseInt` can produce `NaN`. -/
structure SBSState where
  region : SBSRegion
  fileNameA : Option String
  fileNameB : Option String
  startA : Option Int
  startB : Option Int
  hunkHeaderLine : String
  hunkLinesA : List (Option String)
  hunkLinesB : List (Option String)
  deriving DecidableEq, Repr

/-- Initial state of `iterSideBySideDiffsFormatted`. -/
def sbsInit : SBSState :=
  { region := SBSRegion.unknown
    fileNameA := some ""
    fileNameB := some ""
    startA := some (-1)
    startB := some (-1)
    hunkHeaderLine := ""
    hunkLinesA := []
    hunkLinesB := [] }

/-- Output units of `iterSideBySideDiffsFormatted`: one constructor per
external call it yields through. -/
inductive SBSEvent where
  | fileName (a b : Option String)
  | hunk (header : String) (a b : Option String)
      (la lb : List (Option String)) (sa sb : Option Int)
  | separator
  | raw (line : String)
  | commitLine (line : String)
  deriving DecidableEq, Repr

/-- The `hunk` case of the state handler (src/unnamed/part_000 lines
135-151): a `-` line goes to the before list, a `+` line to the after
list, anything else pads the shorter list with `null` and is appended to
both. -/
def collectStep (p : List (Option String) × List (Option String)) (line : String) :
    List (Option String) × List (Option String) :=
  if strStartsWith line "-" then (p.1 ++ [some line], p.2)
  else if strStartsWith line "+" then (p.1, p.2 ++ [some line])
  else
    let la := p.1 ++ List.replicate (p.2.length - p.1.length) none
    let lb := p.2 ++ List.replicate (la.length - p.2.length) none
    (la ++ [some line], lb ++ [some line])

/-- Collecting a whole hunk body from empty lists. -/
def collectHunk (body : List String) : List (Option String) × List (Option String) :=
  body.foldl collectStep ([], [])

/-- Is the line a context line of a hunk body (first character neither
`-` nor `+`)? -/
def isContextLine (line : String) : Bool :=
  !strStartsWith line "-" && !strStartsWith line "+"

/-- Flush of the currently open region: `yieldFileName()` when in `diff`,
`yieldHunk()` (which also clears the collected lists) when in `hunk`. -/
def sbsFlush (st : SBSState) : List SBSEvent × SBSState :=
  match st.region with
  | SBSRegion.diff => ([SBSEvent.fileName st.fileNameA st.fileNameB], st)
  | SBSRegion.hunk =>
    ([SBSEvent.hunk st.hunkHeaderLine st.fileNameA st.fileNameB
        st.hunkLinesA st.hunkLinesB st.startA st.startB],
      { st with hunkLinesA := [], hunkLinesB := [] })
  | _ => ([], st)

/-- The space-separated fields of the hunk-header body
`line.slice(hunkHeaderStart + 3, hunkHeaderEnd)`. -/
def hunkParts (line : String) (hs he : Nat) : List String :=
  splitOnCharStr (sliceStr line (hs + 3) he) ' '

/-- `startAString`: the text of the A-part before its first comma. -/
def hunkAString (line : String) (hs he : Nat) : String :=
  (splitOnCharStr ((hunkParts line hs he).headD "") ',').headD ""

/-- `startBString`: the text of the B-part before its first comma. -/
def hunkBString (bHeader : String) : String :=
  (splitOnCharStr bHeader ',').headD ""

/-- Hunk-header parsing of src/unnamed/part_000 lines 85-100, with each
`assert.ok` failure and the `bHeader.split` crash on `undefined` as an
`Except.error`.  When the terminator is found the assertion
`hunkHeaderEnd > hunkHeaderStart` always holds, since the search starts
at `hunkHeaderStart + 1`. -/
def parseHunkHeaderSBS (line : String) : Except String (Option Int × Option Int) :=
  match indexOfFrom line "@@ " 0 with
  | none => Except.error "assertion failed: hunkHeaderStart is nonnegative"
  | some hs =>
    match indexOfFrom line " @@" (hs + 1) with
    | none => Except.error "assertion failed: hunkHeaderEnd > hunkHeaderStart"
    | some he =>
      match (hunkParts line hs he).get? 1 with
      | none => Except.error "TypeError: bHeader is undefined"
      | some bHeader =>
        if strStartsWith (hunkAString line hs he) "-" then
          if strStartsWith (hunkBString bHeader) "+" then
            Except.ok (parseIntJS (strDrop (hunkAString line hs he) 1),
              parseIntJS (strDrop (hunkBString bHeader) 1))
          else Except.error "assertion failed: startBString begins with plus"
        else Except.error "assertion failed: startAString begins with minus"

/-- The malformedness conditions on a line that triggers the hunk-marker
transition (whose opener sits at position zero): no `" @@"` terminator
after the opener, an A-part not starting with `-`, or a B-part that is
missing or not starting with `+`. -/
def hunkHeaderMalformed (line : String) : Bool :=
  match indexOfFrom line " @@" 1 with
  | none => true
  | some he =>
    !strStartsWith (hunkAString line 0 he) "-"
      || (match (hunkParts line 0 he).get? 1 with
          | none => true
          | some bHeader => !strStartsWith (hunkBString bHeader) "+")

/-- The `switch (state)` dispatch of `iterSideBySideDiffsFormatted`.
`rawLine` is the line as received, `line` its sanitized form; only the
`unknown` region passes the raw line through. -/
def sbsHandle (st : SBSState) (rawLine line : String) : List SBSEvent × SBSState :=
  match st.region with
  | SBSRegion.unknown => ([SBSEvent.raw rawLine], st)
  | SBSRegion.commit => ([SBSEvent.commitLine line], st)
  | SBSRegion.diff =>
    if strStartsWith line "--- a/" then ([], { st with fileNameA := some (strDrop line 6) })
    else if strStartsWith line "+++ b/" then ([], { st with fileNameB := some (strDrop line 6) })
    else if strStartsWith line "rename from " then
      ([], { st with fileNameA := some (strDrop line 12) })
    else if strStartsWith line "rename to " then
      ([], { st with fileNameB := some (strDrop line 10) })
    else if strStartsWith line "Binary files" then
      match binaryFilesMatch line with
      | some g => ([], { st with fileNameA := g.1, fileNameB := g.2 })
      | none => ([], st)
    else ([], st)
  | SBSRegion.hunk =>
    let p := collectStep (st.hunkLinesA, st.hunkLinesB) line
    ([], { st with hunkLinesA := p.1, hunkLinesB := p.2 })

/-- One loop iteration of `iterSideBySideDiffsFormatted`: sanitize, run
the transition checks, then (except after a hunk-header line, which
`continue`s) dispatch on the current region.  The error case embeds an
exception escaping the generator. -/
def sbsStep (st : SBSState) (rawLine : String) : List SBSEvent × Except String SBSState :=
  let line := stripAnsi rawLine
  if strStartsWith line "commit " then
    let fl := sbsFlush st
    let evs := fl.1 ++ (if st.region = SBSRegion.hunk then [SBSEvent.separator] else [])
    let r := sbsHandle { fl.2 with region := SBSRegion.commit } rawLine line
    (evs ++ r.1, Except.ok r.2)
  else if strStartsWith line "diff --git" then
    let fl := sbsFlush st
    let r := sbsHandle
      { fl.2 with region := SBSRegion.diff, fileNameA := some "", fileNameB := some "" }
      rawLine line
    (fl.1 ++ r.1, Except.ok r.2)
  else if strStartsWith line "@@ " then
    let fl := sbsFlush st
    match parseHunkHeaderSBS line with
    | Except.error e => (fl.1, Except.error e)
    | Except.ok sab =>
      let st1 := { fl.2 with
        region := SBSRegion.hunk
        hunkHeaderLine := line
        startA := sab.1
        startB := sab.2 }
      (fl.1, Except.ok st1)
  else
    let r := sbsHandle st rawLine line
    (r.1, Except.ok r.2)

/-- End-of-stream flush (src/unnamed/part_000 lines 155-159). -/
def sbsFinish (st : SBSState) : List SBSEvent :=
  (sbsFlush st).1

/-- Running the loop over a list of lines, accumulating emitted events;
an exception stops consumption with the events emitted so far. -/
def sbsRunAux : SBSState → List SBSEvent → List String → List SBSEvent × Except String SBSState
  | st, acc, [] => (acc, Except.ok st)
  | st, acc, l :: ls =>
    match sbsStep st l with
    | (evs, Except.ok st1) => sbsRunAux st1 (acc ++ evs) ls
    | (evs, Except.error e) => (acc ++ evs, Except.error e)

/-- The full event stream of `iterSideBySideDiffsFormatted` on a finite
input, end-of-stream flush included. -/
def sbsOutput (lines : List String) : List SBSEvent :=
  match sbsRunAux sbsInit [] lines with
  | (acc, Except.ok st) => acc ++ sbsFinish st
  | (acc, Except.error _) => acc

example : (parseHunkHeaderSBS "@@ -10,3 +15,5 @@ func foo()").toOption = some (some 10, some 15) := by decide
example : (parseHunkHeaderSBS "@@ x +1 @@").toOption = none := by decide
example :
    sbsOutput ["commit 1", "diff --git a/f b/f", "--- a/f", "+++ b/f", "@@ -1,2 +1,2 @@", " c", "-d", "+e"]
      = [SBSEvent.commitLine "commit 1",
         SBSEvent.fileName (some "f") (some "f"),
         SBSEvent.hunk "@@ -1,2 +1,2 @@" (some "f") (some "f")
           [some " c", some "-d"] [some " c", some "+e"] (some 1) (some 1)] := by decide

/-!
Embedding of `iterateUnifiedDiff` (src/index.ts).  `formatHunkLine` and
the color/width constants belong to the rendering boundary; an aligned
row is emitted as an event carrying the two line numbers and the two raw
lines handed to `formatHunkLine`.  A line value of `none` embeds the
JavaScript `undefined` read `linesA[offset]` out of bounds, `some ""` the
preset empty string used when a side has no entry at the row.
-/

/-- The `state` variable of `iterateUnifiedDiff`. -/
inductive URegion where
  | commit
  | diff
  | hunk
  deriving DecidableEq, Repr

/-- The mutable variables of `iterateUnifiedDiff`.  `hunkStartLine` is
declared without an initializer in the source; it is only read after a
hunk header assigned it, so the initial `""` here is unobservable. -/
structure UState where
  region : URegion
  startA : Option Int
  deltaA : Option Int
  startB : Option Int
  deltaB : Option Int
  hunkStartLine : String
  hunkLines : List String
  deriving DecidableEq, Repr

/-- Initial state of `iterateUnifiedDiff`. -/
def uInit : UState :=
  { region := URegion.commit
    startA := some (-1)
    deltaA := some (-1)
    startB := some (-1)
    deltaB := some (-1)
    hunkStartLine := ""
    hunkLines := [] }

/-- Output units of `iterateUnifiedDiff`. -/
inductive UEvent where
  | passthrough (line : String)
  | fileName (s : String)
  | hunkHeader (line : String)
  | row (lineNoA : Option Int) (lineA : Option String) (lineNoB : Option Int) (lineB : Option String)
  deriving DecidableEq, Repr

/-- The partition loop of `yieldHunkIfNeeded`: `-` lines to the first
list, `+` lines to the second, anything else to both. -/
def partitionHunkLines (ls : List String) : List String × List String :=
  ls.foldl
    (fun p line =>
      if strStartsWith line "-" then (p.1 ++ [line], p.2)
      else if strStartsWith line "+" then (p.1, p.2 ++ [line])
      else (p.1 ++ [line], p.2 ++ [line]))
    ([], [])

/-- The JavaScript comparison `offset < delta` where `delta` is a number
that may be `NaN` (every comparison with `NaN` is false). -/
def ltOpt (n : Nat) (d : Option Int) : Bool :=
  match d with
  | some v => decide ((n : Int) < v)
  | none => false

/-- `lineNo++` on a number that may be `NaN`. -/
def incOpt (x : Option Int) : Option Int :=
  x.map (fun v => v + 1)

/-- `NaN`-as-zero clamp of a delta to a natural number. -/
def toNatD (d : Option Int) : Nat :=
  match d with
  | some v => v.toNat
  | none => 0

/-- Number of iterations of the row loop
`while (offset < deltaA || offset < deltaB)`. -/
def rowCount (dA dB : Option Int) : Nat :=
  max (toNatD dA) (toNatD dB)

/-- The row loop of `yieldHunkIfNeeded` (src/index.ts lines 112-131).
`fuel` bounds the iterations; `rowCount dA dB` is always enough starting
from `offset = 0`. -/
def unifiedRowsAux (lA lB : List String) (dA dB : Option Int) :
    Nat → Nat → Option Int → Option Int → List UEvent
  | 0, _, _, _ => []
  | fuel + 1, offset, nA, nB =>
    if ltOpt offset dA || ltOpt offset dB then
      let lineA : Option String := if ltOpt offset dA then lA[offset]? else some ""
      let nA1 := if ltOpt offset dA then incOpt nA else nA
      let lineB : Option String := if ltOpt offset dB then lB[offset]? else some ""
      let nB1 := if ltOpt offset dB then incOpt nB else nB
      UEvent.row nA1 lineA nB1 lineB :: unifiedRowsAux lA lB dA dB fuel (offset + 1) nA1 nB1
    else []

/-- All aligned rows of one hunk. -/
def unifiedRows (lA lB : List String) (sA sB dA dB : Option Int) : List UEvent :=
  unifiedRowsAux lA lB dA dB (rowCount dA dB) 0 sA sB

/-- Embedding of `yieldHunkIfNeeded`: nothing when no lines were
collected, otherwise the hunk-header line followed by the aligned rows,
and the collected lines are cleared. -/
def uYieldHunk (st : UState) : List UEvent × UState :=
  if st.hunkLines = [] then ([], st)
  else
    let p := partitionHunkLines st.hunkLines
    (UEvent.hunkHeader st.hunkStartLine
        :: unifiedRows p.1 p.2 st.startA st.startB st.deltaA st.deltaB,
      { st with hunkLines := [] })

/-- Hunk-header parsing of src/index.ts lines 143-160 (start lines and
deltas), with assertion failures and the `bHeader.split` crash on
`undefined` as errors. -/
def uParseHeader (line : String) :
    Except String ((Option Int × Option Int) × (Option Int × Option Int)) :=
  match indexOfFrom line "@@ " 0 with
  | none => Except.error "assertion failed: hunkHeaderStart is nonnegative"
  | some hs =>
    match indexOfFrom line " @@" (hs + 1) with
    | none => Except.error "assertion failed: hunkHeaderEnd > hunkHeaderStart"
    | some he =>
      let hunkHeader := sliceStr line (hs + 3) he
      let parts := splitOnCharStr hunkHeader ' '
      match parts.get? 1 with
      | none => Except.error "TypeError: bHeader is undefined"
      | some bHeader =>
        let aParts := splitOnCharStr (parts.headD "") ','
        let bParts := splitOnCharStr bHeader ','
        if strStartsWith (aParts.headD "") "-" then
          if strStartsWith (bParts.headD "") "+" then
            Except.ok
              ((parseIntJS (strDrop (aParts.headD "") 1), optParseInt (aParts.get? 1)),
                (parseIntJS (strDrop (bParts.headD "") 1), optParseInt (bParts.get? 1)))
          else Except.error "assertion failed: startBString begins with plus"
        else Except.error "assertion failed: startAString begins with minus"

/-- The `switch (state)` dispatch of `iterateUnifiedDiff`: `commit`
passes the line through, `diff` emits a file name for `---` lines
(dropping six characters), `hunk` collects the line. -/
def uHandle (st : UState) (line : String) : List UEvent × UState :=
  match st.region with
  | URegion.commit => ([UEvent.passthrough line], st)
  | URegion.diff =>
    if strStartsWith line "---" then ([UEvent.fileName (strDrop line 6)], st)
    else ([], st)
  | URegion.hunk => ([], { st with hunkLines := st.hunkLines ++ [line] })

/-- One loop iteration of `iterateUnifiedDiff`: the `diff ` transition
falls through to the dispatch, the `@@` transition `continue`s. -/
def uStep (st : UState) (line : String) : List UEvent × Except String UState :=
  if strStartsWith line "diff " then
    let y := uYieldHunk st
    let r := uHandle { y.2 with region := URegion.diff } line
    (y.1 ++ r.1, Except.ok r.2)
  else if strStartsWith line "@@" then
    let y := uYieldHunk st
    match uParseHeader line with
    | Except.error e => (y.1, Except.error e)
    | Except.ok ab =>
      let st1 := { y.2 with
        region := URegion.hunk
        hunkStartLine := line
        startA := ab.1.1
        deltaA := ab.1.2
        startB := ab.2.1
        deltaB := ab.2.2 }
      (y.1, Except.ok st1)
  else
    let r := uHandle st line
    (r.1, Except.ok r.2)

/-- Running `iterateUnifiedDiff` over a list of lines. -/
def uRunAux : UState → List UEvent → List String → List UEvent × Except String UState
  | st, acc, [] => (acc, Except.ok st)
  | st, acc, l :: ls =>
    match uStep st l with
    | (evs, Except.ok st1) => uRunAux st1 (acc ++ evs) ls
    | (evs, Except.error e) => (acc ++ evs, Except.error e)

/-- The full event stream of `iterateUnifiedDiff` on a finite input,
including the flush after the loop (src/index.ts line 183). -/
def uOutput (lines : List String) : List UEvent :=
  match uRunAux uInit [] lines with
  | (acc, Except.ok st) => acc ++ (uYieldHunk st).1
  | (acc, Except.error _) => acc

/-- The before/after entries of the row events of an event list, in
order. -/
def rowEntries (evs : List UEvent) : List (Option String × Option String) :=
  evs.filterMap
    (fun e =>
      match e with
      | UEvent.row _ a _ b => some (a, b)
      | _ => none)

example :
    uOutput ["@@ -10,3 +15,3 @@ f", " a", " b", " c"]
      = [UEvent.hunkHeader "@@ -10,3 +15,3 @@ f",
         UEvent.row (some 11) (some " a") (some 16) (some " a"),
         UEvent.row (some 12) (some " b") (some 17) (some " b"),
         UEvent.row (some 13) (some " c") (some 18) (some " c")] := by decide

example :
    uOutput ["@@ -1,1 +1,1 @@ x", " a", " b"]
      = [UEvent.hunkHeader "@@ -1,1 +1,1 @@ x",
         UEvent.row (some 2) (some " a") (some 2) (some " a")] := by decide

example :
    uOutput ["@@ -1,2 +3,4 @@ x"] = [] := by decide

/-!
Helper lemmas.
-/

/-- The pattern cannot match at a character that is not an
escape-sequence introducer. -/
theorem matchLenAt_none_of (c : Char) (rest : List Char) (h : isIntro c = false) :
    matchLenAt (c :: rest) = none := by
  simp [matchLenAt, mThen, mPred, h]

/-- One replace pass leaves a string without introducers unchanged, for
any fuel. -/
theorem stripAnsiAux_id (fuel : Nat) (s : List Char) (h : s.any isIntro = false) :
    stripAnsiAux fuel s = s := by
  induction s generalizing fuel with
  | nil => cases fuel <;> rfl
  | cons c rest ih =>
    cases fuel with
    | zero => rfl
    | succ f =>
      simp only [List.any_cons, Bool.or_eq_false_iff] at h
      rw [stripAnsiAux, matchLenAt_none_of c rest h.1, ih f h.2]

/-- The sanitizer is the identity on strings without an escape-sequence
introducer. -/
theorem stripAnsi_id_of_no_intro (s : String) (h : hasIntro s = false) :
    stripAnsi s = s := by
  unfold stripAnsi
  rw [stripAnsiAux_id _ _ h]

/-- Padding with `null` placeholders neither adds nor removes real
entries at any index. -/
theorem pad_getElem_some (l : List (Option String)) (k j : Nat) (x : String) :
    ((l ++ List.replicate k (none : Option String))[j]? = some (some x)) ↔
      (l[j]? = some (some x)) := by
  rcases Nat.lt_or_ge j l.length with hj | hj
  · rw [List.getElem?_append_left hj]
  · rw [List.getElem?_append_right hj, List.getElem?_replicate, List.getElem?_len_le hj]
    constructor
    · intro hcontra
      split at hcontra
      · exact absurd (Option.some_injective _ hcontra) (by simp)
      · cases hcontra
    · intro hcontra
      cases hcontra

/-- A real entry of a list sits before its length. -/
theorem lt_length_of_getElem_some (l : List (Option String)) (j : Nat) (x : String)
    (h : l[j]? = some (some x)) : j < l.length := by
  rcases List.getElem?_eq_some.mp h with ⟨hlt, _⟩
  exact hlt

/-- One step of the hunk-body collection preserves alignment of context
entries. -/
theorem collectStep_aligned (p : List (Option String) × List (Option String)) (line : String)
    (ih : ∀ (j : Nat) (c : String), isContextLine c = true → (p.1[j]? = some (some c) ↔ p.2[j]? = some (some c)))
    (j : Nat) (c : String) (hc : isContextLine c = true) :
    ((collectStep p line).1[j]? = some (some c) ↔ (collectStep p line).2[j]? = some (some c)) := by
  by_cases hm : strStartsWith line "-"
  · simp only [collectStep, hm, if_pos]
    constructor
    · intro h
      rcases Nat.lt_or_ge j p.1.length with hj | hj
      · rw [List.getElem?_append_left hj] at h
        exact (ih j c hc).1 h
      · rw [List.getElem?_append_right hj] at h
        rcases Nat.eq_or_lt_of_le hj with he | hlt
        · rw [← he, Nat.sub_self] at h
          simp only [List.getElem?_cons_zero] at h
          have hcl : c = line := by
            have := Option.some_injective _ h
            exact (Option.some_injective _ this).symm
          rw [hcl] at hc
          simp [isContextLine, hm] at hc
        · have : j - p.1.length ≥ 1 := by omega
          rw [List.getElem?_len_le (by simpa using this)] at h
          cases h
    · intro h
      have h1 := (ih j c hc).2 h
      rw [List.getElem?_append_left (lt_length_of_getElem_some _ _ _ h1)]
      exact h1
  · by_cases hp : strStartsWith line "+"
    · simp only [collectStep, hm, hp, if_neg, if_pos, Bool.false_eq_true, ite_false, ite_true]
      constructor
      · intro h
        have h1 := (ih j c hc).1 h
        rw [List.getElem?_append_left (lt_length_of_getElem_some _ _ _ h1)]
        exact h1
      · intro h
        rcases Nat.lt_or_ge j p.2.length with hj | hj
        · rw [List.getElem?_append_left hj] at h
          exact (ih j c hc).2 h
        · rw [List.getElem?_append_right hj] at h
          rcases Nat.eq_or_lt_of_le hj with he | hlt
          · rw [← he, Nat.sub_self] at h
            simp only [List.getElem?_cons_zero] at h
            have hcl : c = line := by
              have := Option.some_injective _ h
              exact (Option.some_injective _ this).symm
            rw [hcl] at hc
            simp [isContextLine, hp] at hc
          · have : j - p.2.length ≥ 1 := by omega
            rw [List.getElem?_len_le (by simpa using this)] at h
            cases h
    · -- context line: both sides are padded to the same length `m` and
      -- receive the entry `some line` at index `m`
      simp only [collectStep, hm, hp, Bool.false_eq_true, ite_false]
      set la := p.1 ++ List.replicate (p.2.length - p.1.length) (none : Option String) with hla
      set lb := p.2 ++ List.replicate (la.length - p.2.length) (none : Option String) with hlb
      have hlena : la.length = max p.1.length p.2.length := by
        rw [hla, List.length_append, List.length_replicate]; omega
      have hlenb : lb.length = la.length := by
        rw [hlb, List.length_append, List.length_replicate]; omega
      constructor
      · intro h
        rcases Nat.lt_or_ge j la.length with hj | hj
        · rw [List.getElem?_append_left hj] at h
          have h1 : p.1[j]? = some (some c) := (pad_getElem_some _ _ _ _).1 h
          have h2 : p.2[j]? = some (some c) := (ih j c hc).1 h1
          have h3 : lb[j]? = some (some c) := (pad_getElem_some _ _ _ _).2 h2
          rw [List.getElem?_append_left (lt_length_of_getElem_some _ _ _ h3)]
          exact h3
        · rw [List.getElem?_append_right hj] at h
          rcases Nat.eq_or_lt_of_le hj with he | hlt
          · rw [← he, Nat.sub_self] at h
            simp only [List.getElem?_cons_zero] at h
            have hj2 : j = lb.length := by omega
            rw [hj2, List.getElem?_concat_length]
            exact h
          · have : j - la.length ≥ 1 := by omega
            rw [List.getElem?_len_le (by simpa using this)] at h
            cases h
      · intro h
        rcases Nat.lt_or_ge j lb.length with hj | hj
        · rw [List.getElem?_append_left hj] at h
          have h1 : p.2[j]? = some (some c) := (pad_getElem_some _ _ _ _).1 h
          have h2 : p.1[j]? = some (some c) := (ih j c hc).2 h1
          have h3 : la[j]? = some (some c) := (pad_getElem_some _ _ _ _).2 h2
          rw [List.getElem?_append_left (lt_length_of_getElem_some _ _ _ h3)]
          exact h3
        · rw [List.getElem?_append_right hj] at h
          rcases Nat.eq_or_lt_of_le hj with he | hlt
          · rw [← he, Nat.sub_self] at h
            simp only [List.getElem?_cons_zero] at h
            have hj2 : j = la.length := by omega
            rw [hj2, List.getElem?_concat_length]
            exact h
          · have : j - lb.length ≥ 1 := by omega
            rw [List.getElem?_len_le (by simpa using this)] at h
            cases h

/-- The before (or after) entry the row loop reads for row `i`: the
collected line when the loop guard for that side holds, the preset empty
string otherwise. -/
def uEntryAt (l : List String) (d : Option Int) (i : Nat) : Option String :=
  if ltOpt i d then l[i]? else some ""

/-- The loop guard for one side holds exactly below the clamped delta. -/
theorem ltOpt_iff (n : Nat) (d : Option Int) : ltOpt n d = true ↔ n < toNatD d := by
  cases d with
  | none => simp [ltOpt, toNatD]
  | some v => simp [ltOpt, toNatD, Int.lt_toNat]

/-- The row loop runs exactly `rowCount dA dB` times. -/
theorem unifiedRowsAux_length (lA lB : List String) (dA dB : Option Int) :
    ∀ fuel offset nA nB, rowCount dA dB ≤ offset + fuel →
      (unifiedRowsAux lA lB dA dB fuel offset nA nB).length = rowCount dA dB - offset := by
  intro fuel
  induction fuel with
  | zero =>
    intro offset nA nB hle
    have h0 : rowCount dA dB - offset = 0 := by omega
    simp [unifiedRowsAux, h0]
  | succ f ih =>
    intro offset nA nB hle
    by_cases hg : (ltOpt offset dA || ltOpt offset dB) = true
    · have hofs : offset < rowCount dA dB := by
        rcases Bool.or_eq_true_iff.mp hg with h | h
        · exact lt_max_iff.mpr (Or.inl ((ltOpt_iff _ _).mp h))
        · exact lt_max_iff.mpr (Or.inr ((ltOpt_iff _ _).mp h))
      rw [unifiedRowsAux, if_pos hg]
      simp only [List.length_cons]
      rw [ih (offset + 1) _ _ (by omega)]
      omega
    · have hofs : ¬offset < rowCount dA dB := by
        intro hcontra
        rcases lt_max_iff.mp hcontra with h | h
        · exact hg (Bool.or_eq_true_iff.mpr (Or.inl ((ltOpt_iff _ _).mpr h)))
        · exact hg (Bool.or_eq_true_iff.mpr (Or.inr ((ltOpt_iff _ _).mpr h)))
      rw [unifiedRowsAux, if_neg hg]
      simp only [List.length_nil]
      omega

/-- Shifting a map over an initial range by one step. -/
theorem range_map_shift {α : Type} (h : Nat → α) (n offset : Nat) :
    (List.range (n + 1)).map (fun k => h (offset + k))
      = h offset :: (List.range n).map (fun k => h (offset + 1 + k)) := by
  rw [List.range_succ_eq_map]
  simp only [List.map_cons, List.map_map, Nat.add_zero]
  congr 1
  apply List.map_congr_left
  intro k _
  simp only [Function.comp_apply]
  congr 1
  omega

/-- Closed form for the entries the row loop emits from any offset. -/
theorem unifiedRowsAux_entries (lA lB : List String) (dA dB : Option Int) :
    ∀ fuel offset nA nB, rowCount dA dB ≤ offset + fuel →
      rowEntries (unifiedRowsAux lA lB dA dB fuel offset nA nB)
        = (List.range (rowCount dA dB - offset)).map
            (fun k => (uEntryAt lA dA (offset + k), uEntryAt lB dB (offset + k))) := by
  intro fuel
  induction fuel with
  | zero =>
    intro offset nA nB hle
    have h0 : rowCount dA dB - offset = 0 := by omega
    simp [unifiedRowsAux, rowEntries, h0]
  | succ f ih =>
    intro offset nA nB hle
    by_cases hg : (ltOpt offset dA || ltOpt offset dB) = true
    · have hofs : offset < rowCount dA dB := by
        rcases Bool.or_eq_true_iff.mp hg with h | h
        · exact lt_max_iff.mpr (Or.inl ((ltOpt_iff _ _).mp h))
        · exact lt_max_iff.mpr (Or.inr ((ltOpt_iff _ _).mp h))
      rw [unifiedRowsAux, if_pos hg]
      have hsub : rowCount dA dB - offset = (rowCount dA dB - (offset + 1)) + 1 := by omega
      rw [hsub,
        range_map_shift (fun i => (uEntryAt lA dA i, uEntryAt lB dB i)) _ offset]
      simp only [rowEntries, List.filterMap_cons]
      rw [← rowEntries, ih (offset + 1) _ _ (by omega)]
      simp [uEntryAt, Nat.add_zero]
    · have hofs : ¬offset < rowCount dA dB := by
        intro hcontra
        rcases lt_max_iff.mp hcontra with h | h
        · exact hg (Bool.or_eq_true_iff.mpr (Or.inl ((ltOpt_iff _ _).mpr h)))
        · exact hg (Bool.or_eq_true_iff.mpr (Or.inr ((ltOpt_iff _ _).mpr h)))
      rw [unifiedRowsAux, if_neg hg]
      have h0 : rowCount dA dB - offset = 0 := by omega
      simp [rowEntries, h0]

/-- When the delta is the list length, the entry is the real line below
the length and the padding marker from the length on. -/
theorem uEntryAt_of_length (l : List String) (i : Nat) :
    uEntryAt l (some (l.length : Int)) i = if i < l.length then l[i]? else some "" := by
  simp [uEntryAt, ltOpt, Nat.cast_lt]

/-- The alignment invariant holds after folding any hunk body from any
aligned pair of lists. -/
theorem collectFold_aligned (body : List String) :
    ∀ p : List (Option String) × List (Option String),
      (∀ (j : Nat) (c : String), isContextLine c = true → (p.1[j]? = some (some c) ↔ p.2[j]? = some (some c))) →
      ∀ (j : Nat) (c : String), isContextLine c = true →
        ((body.foldl collectStep p).1[j]? = some (some c) ↔
          (body.foldl collectStep p).2[j]? = some (some c)) := by
  induction body with
  | nil => intro p hp; exact hp
  | cons l ls ih =>
    intro p hp
    exact ih (collectStep p l) (collectStep_aligned p l hp)

/-- The region dispatch of the unified parser never changes the region. -/
theorem uHandle_region (st : UState) (line : String) :
    (uHandle st line).2.region = st.region := by
  rcases st with ⟨r, sa, da, sb, db, hsl, hls⟩
  cases r
  · rfl
  · by_cases h : strStartsWith line "---"
    · simp [uHandle, h]
    · simp [uHandle, h]
  · rfl

/-- The region dispatch of the side-by-side parser never changes the
region. -/
theorem sbsHandle_region (st : SBSState) (rawLine line : String) :
    (sbsHandle st rawLine line).2.region = st.region := by
  rcases st with ⟨r, fa, fb, sa, sb, hh, la, lb⟩
  cases r
  · rfl
  · rfl
  · unfold sbsHandle
    repeat' split
    all_goals rfl
  · rfl

/-- If a pattern is a prefix of the string, `indexOf` from zero finds
position zero. -/
theorem indexOfFrom_zero (s pat : String) (h : strStartsWith s pat = true) :
    indexOfFrom s pat 0 = some 0 := by
  unfold strStartsWith at h
  unfold indexOfFrom
  rw [List.range_succ_eq_map, List.filter_cons]
  have h0 : (decide (0 ≤ 0) && pat.data.isPrefixOf (s.data.drop 0)) = true := by
    simp [h]
  rw [if_pos h0]
  rfl

/-- Inversion of a prefix check on a nonempty pattern. -/
theorem isPrefixOf_cons_elim (a : Char) (as bs : List Char)
    (h : (a :: as).isPrefixOf bs = true) :
    ∃ cs, bs = a :: cs ∧ as.isPrefixOf cs = true := by
  cases bs with
  | nil => simp [List.isPrefixOf] at h
  | cons b cs =>
    simp only [List.isPrefixOf, Bool.and_eq_true, beq_iff_eq] at h
    exact ⟨cs, by rw [h.1], h.2⟩

/-- A line starting with the hunk marker starts with neither of the other
two transition markers. -/
theorem hh_not_other_markers (s : String) (h : strStartsWith s "@@ " = true) :
    strStartsWith s "commit " = false ∧ strStartsWith s "diff --git" = false := by
  unfold strStartsWith at h ⊢
  obtain ⟨cs, hcs, -⟩ := isPrefixOf_cons_elim '@' ['@', ' '] s.data h
  rw [hcs]
  constructor <;> simp [List.isPrefixOf]

/-- When the transition line is malformed in one of the three claimed
ways, hunk-header parsing reaches an error. -/
theorem parseSBS_error_of_malformed (line : String)
    (h : strStartsWith line "@@ " = true)
    (hm : hunkHeaderMalformed line = true) :
    ∃ e, parseHunkHeaderSBS line = Except.error e := by
  have h0 : indexOfFrom line "@@ " 0 = some 0 := indexOfFrom_zero line "@@ " h
  unfold parseHunkHeaderSBS
  unfold hunkHeaderMalformed at hm
  simp only [h0]
  split
  · exact ⟨_, rfl⟩
  · rename_i he heq1
    split
    · exact ⟨_, rfl⟩
    · rename_i bHeader heq2
      split
      · rename_i ha
        split
        · rename_i hbp
          rw [show indexOfFrom line " @@" 1 = some he from heq1] at hm
          simp only [heq2, ha, hbp, Bool.not_true, Bool.or_self] at hm
          exact absurd hm Bool.false_ne_true
        · exact ⟨_, rfl⟩
      · exact ⟨_, rfl⟩

/-!
Claim theorems.
-/

/-- C1 (counterexample): in `iterateUnifiedDiff`, a hunk whose header
declares deltas `1,1` but whose body holds two collected context lines on
each side is rendered with one aligned row, not
`max(n_before, n_after) = 2` rows — the aligner is driven by the declared
deltas, refuting the claim as stated. -/
theorem claim_C1_counterexample :
    (rowEntries (uOutput ["@@ -1,1 +1,1 @@ x", " a", " b"])).length
      ≠ max (partitionHunkLines [" a", " b"]).1.length
          (partitionHunkLines [" a", " b"]).2.length := by
  decide

/-- C1 (amended): the unified aligner emits exactly
`max(deltaA, deltaB)` rows (deltas clamped at zero, `NaN` as zero); when
each declared delta equals the collected list length this is
`max(n_before, n_after)`, and a side's entry is the collected line at
every index below that side's length and the empty-string padding marker
at and past it. -/
theorem claim_C1_amended (lA lB : List String) (sA sB : Option Int) :
    (∀ dA dB : Option Int, (unifiedRows lA lB sA sB dA dB).length = rowCount dA dB)
      ∧ (unifiedRows lA lB sA sB (some lA.length) (some lB.length)).length
          = max lA.length lB.length
      ∧ rowEntries (unifiedRows lA lB sA sB (some lA.length) (some lB.length))
          = (List.range (max lA.length lB.length)).map
              (fun i => ((if i < lA.length then lA[i]? else some ""),
                (if i < lB.length then lB[i]? else some ""))) := by
  have hrc : rowCount (some (lA.length : Int)) (some (lB.length : Int))
      = max lA.length lB.length := by
    simp [rowCount, toNatD, Int.toNat_natCast]
  refine ⟨?_, ?_, ?_⟩
  · intro dA dB
    have := unifiedRowsAux_length lA lB dA dB (rowCount dA dB) 0 sA sB (by omega)
    simpa [unifiedRows] using this
  · have := unifiedRowsAux_length lA lB (some lA.length) (some lB.length)
      (rowCount (some lA.length) (some lB.length)) 0 sA sB (by omega)
    simpa [unifiedRows, hrc] using this
  · have := unifiedRowsAux_entries lA lB (some lA.length) (some lB.length)
      (rowCount (some lA.length) (some lB.length)) 0 sA sB (by omega)
    rw [unifiedRows, this]
    rw [hrc]
    apply List.map_congr_left
    intro k _
    rw [Nat.zero_add, uEntryAt_of_length, uEntryAt_of_length]

/-- C2 (evaluation at the failing input): for the header
`@@ -10,3 +15,3 @@ f` with three context lines, the first aligned row
displays before-side number 11 and after-side number 16 — the counter is
incremented before its first use, so numbering starts one past the
header's declared start lines instead of at them. -/
theorem claim_C2_eval :
    uOutput ["@@ -10,3 +15,3 @@ f", " a", " b", " c"]
      = [UEvent.hunkHeader "@@ -10,3 +15,3 @@ f",
         UEvent.row (some 11) (some " a") (some 16) (some " a"),
         UEvent.row (some 12) (some " b") (some 17) (some " b"),
         UEvent.row (some 13) (some " c") (some 18) (some " c")]
      ∧ (some (11 : Int) : Option Int) ≠ some 10 := by
  decide

/-- C3: in the hunk-body collection of the side-by-side parser, every
context entry occupies the same row index in the before list and the
after list (and, being a `some` entry, is never a padding placeholder). -/
theorem claim_C3 (body : List String) (j : Nat) (c : String)
    (hc : isContextLine c = true) :
    ((collectHunk body).1[j]? = some (some c) ↔ (collectHunk body).2[j]? = some (some c)) := by
  unfold collectHunk
  exact collectFold_aligned body ([], []) (by intro j c hc; simp) j c hc

/-- Witness for C3 at a concrete hunk body. -/
theorem claim_C3_witness :
    (isContextLine " x" = true)
      ∧ ((collectHunk ["-a", " x"]).1[1]? = some (some " x")
          ↔ (collectHunk ["-a", " x"]).2[1]? = some (some " x")) :=
  ⟨by decide, claim_C3 ["-a", " x"] 1 " x" (by decide)⟩

/-- C4 (evaluation at the failing input): `iterateReadableLinesAsync` on
the chunks `["ab", "c\n", "d\n"]` yields `["abc", "", "abd", "", "ab"]`
instead of the two input lines `["abc", "d"]`: the held-back fragment is
never cleared, so it is glued onto later chunks and re-emitted at the
end, and every chunk ending in a newline yields a spurious empty line. -/
theorem claim_C4_eval :
    iterateReadableLines ["ab", "c\n", "d\n"] = ["abc", "", "abd", "", "ab"]
      ∧ (["abc", "", "abd", "", "ab"] : List String) ≠ ["abc", "d"] := by
  decide

/-- The parser state sitting in the `FileDiff` region with both path
fields reset to the empty string. -/
def sbsDiffState : SBSState :=
  { sbsInit with region := SBSRegion.diff }

/-- C5 (counterexample): processing
`Binary files a/x.bin and /dev/null differ` in the `FileDiff` region sets
`pathBefore` to `x.bin` but overwrites `pathAfter` with the value of the
non-participating capture group — `undefined`, which is not the empty
string. -/
theorem claim_C5_counterexample :
    ((sbsStep sbsDiffState "Binary files a/x.bin and /dev/null differ").2.toOption.map
        SBSState.fileNameA = some (some "x.bin"))
      ∧ ((sbsStep sbsDiffState "Binary files a/x.bin and /dev/null differ").2.toOption.map
          SBSState.fileNameB = some none)
      ∧ (some (none : Option String) : Option (Option String)) ≠ some (some "") := by
  decide

/-- C5 (amended): the binary-files line sets `pathBefore` to `x.bin` and
`pathAfter` to `undefined` (the capture group of the `/dev/null`
alternative), emitting nothing. -/
theorem claim_C5_amended :
    sbsStep sbsDiffState "Binary files a/x.bin and /dev/null differ"
      = ([], Except.ok { sbsDiffState with fileNameA := some "x.bin", fileNameB := none }) := by
  rfl

/-- C6 (counterexample): `iterateUnifiedDiff` transitions into the
`diff` region on a line starting with `diff ` but not with `diff --git`
(and not with any of the three documented markers), refuting the claim
that only the exact documented markers trigger a transition. -/
theorem claim_C6_counterexample :
    strStartsWith "diff --cc a b" "diff --git" = false
      ∧ strStartsWith "diff --cc a b" "commit " = false
      ∧ strStartsWith "diff --cc a b" "@@ " = false
      ∧ (uStep uInit "diff --cc a b").2.toOption.map UState.region = some URegion.diff
      ∧ uInit.region ≠ URegion.diff := by
  decide

/-- C6 (amended): in the side-by-side parser a line starting with none of
`commit `, `diff --git`, `@@ ` never changes the region; the unified
parser, however, transitions into `diff` on any line with the looser
prefix `diff `. -/
theorem claim_C6_amended :
    (∀ (st : SBSState) (line : String),
        strStartsWith (stripAnsi line) "commit " = false →
        strStartsWith (stripAnsi line) "diff --git" = false →
        strStartsWith (stripAnsi line) "@@ " = false →
        ∃ st1, (sbsStep st line).2 = Except.ok st1 ∧ st1.region = st.region)
      ∧ (∀ (st : UState) (line : String), strStartsWith line "diff " = true →
        ∃ st1, (uStep st line).2 = Except.ok st1 ∧ st1.region = URegion.diff) := by
  constructor
  · intro st line h1 h2 h3
    refine ⟨(sbsHandle st line (stripAnsi line)).2, ?_, sbsHandle_region st line (stripAnsi line)⟩
    unfold sbsStep
    simp only [h1, h2, h3, Bool.false_eq_true, if_false]
  · intro st line h
    refine ⟨(uHandle { (uYieldHunk st).2 with region := URegion.diff } line).2, ?_, ?_⟩
    · unfold uStep
      simp only [h, if_true]
    · rw [uHandle_region]

/-- Witness for C6 (amended) at concrete inputs. -/
theorem claim_C6_amended_witness :
    (strStartsWith (stripAnsi "hello") "commit " = false)
      ∧ (∃ st1, (sbsStep sbsInit "hello").2 = Except.ok st1 ∧ st1.region = sbsInit.region)
      ∧ (strStartsWith "diff --cc a b" "diff " = true)
      ∧ (∃ st1, (uStep uInit "diff --cc a b").2 = Except.ok st1 ∧ st1.region = URegion.diff) :=
  ⟨by decide,
   claim_C6_amended.1 sbsInit "hello" (by decide) (by decide) (by decide),
   by decide,
   claim_C6_amended.2 uInit "diff --cc a b" (by decide)⟩

/-- C7: on a line triggering the hunk-marker transition whose header is
malformed in one of the claimed ways (no `" @@"` terminator, A-part not
starting with `-`, B-part missing or not starting with `+`), the
side-by-side parser raises a fatal error; the only events emitted are the
flush of the previously open region, so no rows of the offending hunk
appear and there is no recovery. -/
theorem claim_C7 (st : SBSState) (line : String)
    (h : strStartsWith (stripAnsi line) "@@ " = true)
    (hm : hunkHeaderMalformed (stripAnsi line) = true) :
    ∃ e, sbsStep st line = ((sbsFlush st).1, Except.error e) := by
  obtain ⟨hc, hd⟩ := hh_not_other_markers (stripAnsi line) h
  obtain ⟨e, he⟩ := parseSBS_error_of_malformed (stripAnsi line) h hm
  refine ⟨e, ?_⟩
  unfold sbsStep
  simp only [hc, hd, h, he, Bool.false_eq_true, if_false, if_true]

/-- Witness for C7 at a concrete malformed header. -/
theorem claim_C7_witness :
    (strStartsWith (stripAnsi "@@ x +1 @@ y") "@@ " = true)
      ∧ (hunkHeaderMalformed (stripAnsi "@@ x +1 @@ y") = true)
      ∧ ∃ e, sbsStep sbsInit "@@ x +1 @@ y" = ((sbsFlush sbsInit).1, Except.error e) :=
  ⟨by decide, by decide, claim_C7 sbsInit "@@ x +1 @@ y" (by decide) (by decide)⟩

/-- In the `diff` region the dispatch emits nothing. -/
theorem sbsHandle_diff_events (st : SBSState) (h : st.region = SBSRegion.diff)
    (raw l : String) : (sbsHandle st raw l).1 = [] := by
  rcases st with ⟨r, fa, fb, sa, sb, hh, la, lb⟩
  subst h
  simp only [sbsHandle]
  repeat' split
  all_goals rfl

/-- C8: with the stream ending while a hunk region is open, the
end-of-stream flush emits exactly the pending hunk (header, file names,
collected lists and start lines as they stand), and this is the same
emission a normal `diff --git` region transition would produce at that
state — a trailing unterminated hunk is never dropped. -/
theorem claim_C8 (st : SBSState) (h : st.region = SBSRegion.hunk) :
    sbsFinish st
        = [SBSEvent.hunk st.hunkHeaderLine st.fileNameA st.fileNameB
            st.hunkLinesA st.hunkLinesB st.startA st.startB]
      ∧ (sbsStep st "diff --git a/x b/x").1 = sbsFinish st := by
  have hfl : sbsFlush st
      = ([SBSEvent.hunk st.hunkHeaderLine st.fileNameA st.fileNameB
          st.hunkLinesA st.hunkLinesB st.startA st.startB],
        { st with hunkLinesA := [], hunkLinesB := [] }) := by
    unfold sbsFlush
    rw [h]
  have e1 : strStartsWith (stripAnsi "diff --git a/x b/x") "commit " = false := by decide
  have e2 : strStartsWith (stripAnsi "diff --git a/x b/x") "diff --git" = true := by decide
  constructor
  · unfold sbsFinish
    rw [hfl]
  · unfold sbsStep
    simp only [e1, e2, Bool.false_eq_true, if_false, if_true]
    rw [sbsHandle_diff_events _ rfl]
    simp [sbsFinish]

/-- Witness state: a parser state with an open hunk. -/
def sbsHunkState : SBSState :=
  { sbsInit with
    region := SBSRegion.hunk
    hunkHeaderLine := "@@ -1,1 +2,1 @@ h"
    startA := some 1
    startB := some 2
    hunkLinesA := [some "-x"] }

/-- Witness for C8 at a concrete open-hunk state. -/
theorem claim_C8_witness :
    (sbsHunkState.region = SBSRegion.hunk)
      ∧ (sbsFinish sbsHunkState
          = [SBSEvent.hunk sbsHunkState.hunkHeaderLine sbsHunkState.fileNameA
              sbsHunkState.fileNameB sbsHunkState.hunkLinesA sbsHunkState.hunkLinesB
              sbsHunkState.startA sbsHunkState.startB]
        ∧ (sbsStep sbsHunkState "diff --git a/x b/x").1 = sbsFinish sbsHunkState) :=
  ⟨rfl, claim_C8 sbsHunkState rfl⟩

/-- C9 (counterexample): the sanitizer is not idempotent — removing the
inner escape sequence of `"\x1b[\x1b[31m31m"` concatenates the
surrounding fragments into a new escape sequence, which a second pass
removes. -/
theorem claim_C9_counterexample :
    stripAnsi (stripAnsi "\x1b[\x1b[31m31m") ≠ stripAnsi "\x1b[\x1b[31m31m" := by
  decide

/-- C9 (amended): the sanitizer leaves strings without an escape
introducer byte-identical, and is idempotent on every input whose
sanitized form contains no introducer; it is not idempotent in general. -/
theorem claim_C9_amended (x : String) :
    (hasIntro x = false → stripAnsi x = x)
      ∧ (hasIntro (stripAnsi x) = false → stripAnsi (stripAnsi x) = stripAnsi x) :=
  ⟨stripAnsi_id_of_no_intro x, fun h => stripAnsi_id_of_no_intro (stripAnsi x) h⟩

/-- Witness for C9 (amended) on a plain string. -/
theorem claim_C9_amended_witness :
    (hasIntro "plain text" = false) ∧ stripAnsi "plain text" = "plain text" :=
  ⟨by decide, (claim_C9_amended "plain text").1 (by decide)⟩

/-- C10: `yieldHunkIfNeeded` returns early when no hunk lines were
collected, so a hunk with an empty body produces no output at all — not
even its header line, as the run on a lone hunk header shows. -/
theorem claim_C10 (st : UState) (h : st.hunkLines = []) :
    uYieldHunk st = ([], st) ∧ uOutput ["@@ -1,2 +3,4 @@ x"] = [] := by
  constructor
  · unfold uYieldHunk
    rw [if_pos h]
  · decide

/-- Witness for C10 at the initial state. -/
theorem claim_C10_witness :
    (uInit.hunkLines = [])
      ∧ (uYieldHunk uInit = ([], uInit) ∧ uOutput ["@@ -1,2 +3,4 @@ x"] = []) :=
  ⟨rfl, claim_C10 uInit rfl⟩
